import Mathlib

/-! Shallow embedding of the rs_lib slotted-inventory library: the Item value
type from src/entity/item.rs, the InventorySlot tagged union, the Inventory
structure and the Container operations implemented on it from
src/collections/inventory.rs, and the error taxonomy from
src/collections/container.rs, together with proofs about them. -/

namespace RsLib

/-- An item value: identifier and quantity, as in src/entity/item.rs. -/
structure Item where
  identifier : Nat
  quantity : Nat
deriving DecidableEq, Repr

/-- Item.new from the source: builds an item from identifier and quantity. -/
def Item.new (identifier quantity : Nat) : Item :=
  { identifier := identifier, quantity := quantity }

/-- A slot of the inventory: Empty, or holding one Item. -/
inductive InventorySlot where
  | Empty : InventorySlot
  | Item : Item → InventorySlot
deriving DecidableEq, Repr

/-- Whether a slot is in state Holds. -/
def isHolds : InventorySlot → Bool
  | InventorySlot.Empty => false
  | InventorySlot.Item _ => true

/-- Number of slots of a slot list that are in state Holds. -/
def holdsCount (l : List InventorySlot) : Nat :=
  List.countP isHolds l

/-- The Inventory structure from src/collections/inventory.rs: fixed capacity,
running item_count and the slot vector. -/
structure Inventory where
  capacity : Nat
  item_count : Nat
  items : List InventorySlot
deriving DecidableEq, Repr

/-- The closed error taxonomy from src/collections/container.rs. -/
inductive ContainerError where
  | Full
  | NotFound
  | IndexOutOfBounds
  | QuantityInsufficient
deriving DecidableEq, Repr

/-- ContainerResult from the source: success value or a ContainerError. -/
abbrev ContainerResult (α : Type) : Type := Except ContainerError α

/-- Decidable equality of results, so concrete runs can be checked by decide. -/
instance instDecEqExcept {ε α : Type} [DecidableEq ε] [DecidableEq α] :
    DecidableEq (Except ε α) := fun a b =>
  match a, b with
  | Except.ok x, Except.ok y =>
    if h : x = y then isTrue (by rw [h]) else isFalse (by intro hc; cases hc; exact h rfl)
  | Except.error x, Except.error y =>
    if h : x = y then isTrue (by rw [h]) else isFalse (by intro hc; cases hc; exact h rfl)
  | Except.ok _, Except.error _ => isFalse (by intro hc; cases hc)
  | Except.error _, Except.ok _ => isFalse (by intro hc; cases hc)

namespace Inventory

/-- with_capacity: capacity slots, all Empty, zero count (Vec::resize with
InventorySlot::Empty on a fresh Vec). -/
def with_capacity (capacity : Nat) : Inventory :=
  { capacity := capacity, item_count := 0,
    items := List.replicate capacity InventorySlot.Empty }

/-- count returns the item_count field. -/
def count (inv : Inventory) : Nat :=
  inv.item_count

/-- contains: some slot holds an item structurally equal to the argument. -/
def contains (inv : Inventory) (item : Item) : Bool :=
  decide (InventorySlot.Item item ∈ inv.items)

/-- The first-fit scan of add: replace the first Empty slot with the item, or
report none when every slot is occupied. -/
def addLoop (item : Item) : List InventorySlot → Option (List InventorySlot)
  | [] => none
  | InventorySlot.Empty :: rest => some (InventorySlot.Item item :: rest)
  | slot :: rest =>
    match addLoop item rest with
    | some rest2 => some (slot :: rest2)
    | none => none

/-- add: first-fit insert with increment; Full when no empty slot exists.
Mutating operations return the result paired with the state after the call. -/
def add (inv : Inventory) (item : Item) : ContainerResult Unit × Inventory :=
  match addLoop item inv.items with
  | some items2 =>
    (Except.ok (), { inv with items := items2, item_count := inv.item_count + 1 })
  | none => (Except.error ContainerError.Full, inv)

/-- add_at: bounds check against capacity, then unconditional overwrite of the
slot and unconditional increment of item_count. -/
def add_at (inv : Inventory) (item : Item) (slot : Nat) : ContainerResult Unit × Inventory :=
  if inv.capacity ≤ slot then (Except.error ContainerError.IndexOutOfBounds, inv)
  else
    (Except.ok (),
      { inv with items := inv.items.set slot (InventorySlot.Item item),
                 item_count := inv.item_count + 1 })

/-- Outcome of the removal scan over the slot list. -/
inductive RemoveStep where
  | NotFound
  | Insufficient
  | Cleared : List InventorySlot → RemoveStep
  | Replaced : List InventorySlot → RemoveStep
deriving DecidableEq, Repr

/-- The scan of remove: find the first slot whose held item has the matching
identifier and act on it exactly as the loop body in the source does. -/
def removeLoop (item : Item) : List InventorySlot → RemoveStep
  | [] => RemoveStep.NotFound
  | InventorySlot.Item i :: rest =>
    if i.identifier = item.identifier then
      if item.quantity < i.quantity then RemoveStep.Insufficient
      else
        let difference := item.quantity - i.quantity
        if difference = 0 then RemoveStep.Cleared (InventorySlot.Empty :: rest)
        else
          RemoveStep.Replaced
            (InventorySlot.Item (Item.new i.identifier difference) :: rest)
    else
      match removeLoop item rest with
      | RemoveStep.Cleared rest2 => RemoveStep.Cleared (InventorySlot.Item i :: rest2)
      | RemoveStep.Replaced rest2 => RemoveStep.Replaced (InventorySlot.Item i :: rest2)
      | r => r
  | InventorySlot.Empty :: rest =>
    match removeLoop item rest with
    | RemoveStep.Cleared rest2 => RemoveStep.Cleared (InventorySlot.Empty :: rest2)
    | RemoveStep.Replaced rest2 => RemoveStep.Replaced (InventorySlot.Empty :: rest2)
    | r => r

/-- remove: identifier scan with partial-quantity semantics; the Cleared case
also decrements item_count. -/
def remove (inv : Inventory) (item : Item) : ContainerResult Unit × Inventory :=
  match removeLoop item inv.items with
  | RemoveStep.NotFound => (Except.error ContainerError.NotFound, inv)
  | RemoveStep.Insufficient => (Except.error ContainerError.QuantityInsufficient, inv)
  | RemoveStep.Cleared items2 =>
    (Except.ok (), { inv with items := items2, item_count := inv.item_count - 1 })
  | RemoveStep.Replaced items2 =>
    (Except.ok (), { inv with items := items2 })

/-- remove_at: bounds check, then clear an occupied slot and decrement.
The source indexes the vector directly after the bounds check; reachable
states have items.length = capacity, so the getD default is never consulted. -/
def remove_at (inv : Inventory) (slot : Nat) : ContainerResult Unit × Inventory :=
  if inv.capacity ≤ slot then (Except.error ContainerError.IndexOutOfBounds, inv)
  else
    match inv.items.getD slot InventorySlot.Empty with
    | InventorySlot.Item _ =>
      (Except.ok (), { inv with items := inv.items.set slot InventorySlot.Empty,
                                item_count := inv.item_count - 1 })
    | InventorySlot.Empty => (Except.error ContainerError.NotFound, inv)

/-- get_at: bounds check, then copy out the held item. -/
def get_at (inv : Inventory) (slot : Nat) : ContainerResult Item :=
  if inv.capacity ≤ slot then Except.error ContainerError.IndexOutOfBounds
  else
    match inv.items.getD slot InventorySlot.Empty with
    | InventorySlot.Item item => Except.ok item
    | InventorySlot.Empty => Except.error ContainerError.NotFound

/-- Vec::swap on a slot list: each of the two positions receives the value the
other held before the call. -/
def swapList (l : List InventorySlot) (a b : Nat) : List InventorySlot :=
  (l.set a (l.getD b InventorySlot.Empty)).set b (l.getD a InventorySlot.Empty)

/-- swap: bounds check both indices against capacity, then exchange the two
slot values unconditionally. -/
def swap (inv : Inventory) (slot_a slot_b : Nat) : ContainerResult Unit × Inventory :=
  if inv.capacity ≤ slot_a ∨ inv.capacity ≤ slot_b then
    (Except.error ContainerError.IndexOutOfBounds, inv)
  else (Except.ok (), { inv with items := swapList inv.items slot_a slot_b })

/-- One Container mutation request. -/
inductive Op where
  | add : Item → Op
  | add_at : Item → Nat → Op
  | remove : Item → Op
  | remove_at : Nat → Op
  | swap : Nat → Nat → Op

/-- Apply one operation, keeping the resulting state (a failed operation
leaves the state as it was). -/
def applyOp (inv : Inventory) : Op → Inventory
  | Op.add item => (add inv item).2
  | Op.add_at item slot => (add_at inv item slot).2
  | Op.remove item => (remove inv item).2
  | Op.remove_at slot => (remove_at inv slot).2
  | Op.swap a b => (swap inv a b).2

/-- States reachable from with_capacity n by sequences of the mutating
Container operations. -/
inductive Reachable (n : Nat) : Inventory → Prop where
  | init : Reachable n (with_capacity n)
  | step : ∀ {inv : Inventory} (op : Op), Reachable n inv → Reachable n (applyOp inv op)

/-- An operation step that never overwrites an occupied slot through add_at:
the supplied index is out of range (so the call fails without mutation) or the
target slot is Empty. Other operations are unrestricted. -/
def SafeOp (inv : Inventory) : Op → Prop
  | Op.add_at _ slot =>
    inv.capacity ≤ slot ∨ inv.items.getD slot InventorySlot.Empty = InventorySlot.Empty
  | _ => True

/-- Reachability restricted to sequences in which add_at is never applied to
an in-range occupied slot. -/
inductive ReachableSafe (n : Nat) : Inventory → Prop where
  | init : ReachableSafe n (with_capacity n)
  | step : ∀ {inv : Inventory} (op : Op), ReachableSafe n inv → SafeOp inv op →
    ReachableSafe n (applyOp inv op)

/-- Index of the first Empty slot by ascending scan, the wording of the spec
for add. -/
def firstEmptyIdx : List InventorySlot → Option Nat
  | [] => none
  | InventorySlot.Empty :: _ => some 0
  | InventorySlot.Item _ :: rest => (firstEmptyIdx rest).map (fun j => j + 1)

/-- add_spec: the spec wording of add, phrased through firstEmptyIdx, to be
compared with the implementation. -/
def add_spec (inv : Inventory) (item : Item) : ContainerResult Unit × Inventory :=
  match firstEmptyIdx inv.items with
  | some j =>
    (Except.ok (), { inv with items := inv.items.set j (InventorySlot.Item item),
                              item_count := inv.item_count + 1 })
  | none => (Except.error ContainerError.Full, inv)

/-- First slot (index paired with the held item) whose identifier matches, by
ascending scan: the wording of the spec for remove. -/
def firstMatch (id : Nat) : List InventorySlot → Option (Nat × Item)
  | [] => none
  | InventorySlot.Item i :: rest =>
    if i.identifier = id then some (0, i)
    else (firstMatch id rest).map (fun p => (p.1 + 1, p.2))
  | InventorySlot.Empty :: rest => (firstMatch id rest).map (fun p => (p.1 + 1, p.2))

/-- remove_spec: the spec wording of remove, phrased through firstMatch, to be
compared with the implementation. -/
def remove_spec (inv : Inventory) (item : Item) : ContainerResult Unit × Inventory :=
  match firstMatch item.identifier inv.items with
  | none => (Except.error ContainerError.NotFound, inv)
  | some (j, held) =>
    if held.quantity > item.quantity then
      (Except.error ContainerError.QuantityInsufficient, inv)
    else
      let remainder := item.quantity - held.quantity
      if remainder = 0 then
        (Except.ok (), { inv with items := inv.items.set j InventorySlot.Empty,
                                  item_count := inv.item_count - 1 })
      else
        let newSlot := InventorySlot.Item (Item.new held.identifier remainder)
        (Except.ok (), { inv with items := inv.items.set j newSlot })

/-- Iterated add of the items f 0, f 1, ... starting from a given state. -/
def addN (inv : Inventory) (f : Nat → Item) : Nat → Inventory
  | 0 => inv
  | k + 1 => (add (addN inv f k) (f k)).2

end Inventory

end RsLib

namespace RsLib

open Inventory

/-- getD after set at the same in-range index yields the written value. -/
theorem getD_set_self {l : List InventorySlot} {i : Nat} (x d : InventorySlot)
    (h : i < l.length) : (l.set i x).getD i d = x := by
  rw [List.getD_eq_getElem _ _ (by simpa using h)]
  exact List.getElem_set_self (by simpa using h)

/-- getD after set at a different index is unchanged. -/
theorem getD_set_ne {l : List InventorySlot} {i j : Nat} (x d : InventorySlot)
    (hij : i ≠ j) : (l.set i x).getD j d = l.getD j d := by
  by_cases hj : j < l.length
  · rw [List.getD_eq_getElem _ _ (by simpa using hj), List.getD_eq_getElem _ _ hj]
    exact List.getElem_set_ne hij _
  · rw [List.getD_eq_default _ _ (by simpa using Nat.le_of_not_lt hj),
      List.getD_eq_default _ _ (Nat.le_of_not_lt hj)]

/-- Effect of set on countP: the old value leaves the count, the new enters. -/
theorem countP_set_aux (p : InventorySlot → Bool) (l : List InventorySlot) :
    ∀ (i : Nat) (x d : InventorySlot), i < l.length →
      List.countP p (l.set i x) + (if p (l.getD i d) = true then 1 else 0)
        = List.countP p l + (if p x = true then 1 else 0) := by
  induction l with
  | nil => intro i x d h; simp at h
  | cons s t ih =>
    intro i x d h
    cases i with
    | zero =>
      simp only [List.set_cons_zero, List.getD_cons_zero, List.countP_cons]
      split_ifs <;> omega
    | succ i =>
      simp only [List.set_cons_succ, List.getD_cons_succ, List.countP_cons]
      have := ih i x d (by simpa using Nat.lt_of_succ_lt_succ h)
      split_ifs at this ⊢ <;> omega

/-- Setting any slot changes holdsCount by at most one upward. -/
theorem holdsCount_set_le (l : List InventorySlot) (i : Nat) (x : InventorySlot) :
    holdsCount (l.set i x) ≤ holdsCount l + 1 := by
  by_cases h : i < l.length
  · have := countP_set_aux isHolds l i x InventorySlot.Empty h
    unfold holdsCount
    split_ifs at this <;> omega
  · rw [List.set_eq_of_length_le (Nat.le_of_not_lt h)]
    omega

/-- Writing an item into an in-range Empty slot raises holdsCount by one. -/
theorem holdsCount_set_item_of_empty {l : List InventorySlot} {i : Nat} (it : Item)
    (h : i < l.length) (he : l.getD i InventorySlot.Empty = InventorySlot.Empty) :
    holdsCount (l.set i (InventorySlot.Item it)) = holdsCount l + 1 := by
  have hc := countP_set_aux isHolds l i (InventorySlot.Item it) InventorySlot.Empty h
  rw [he] at hc
  simp [isHolds] at hc
  unfold holdsCount
  omega

/-- Clearing an in-range occupied slot lowers holdsCount by one. -/
theorem holdsCount_set_empty_of_item {l : List InventorySlot} {i : Nat} {it : Item}
    (h : i < l.length) (he : l.getD i InventorySlot.Empty = InventorySlot.Item it) :
    holdsCount (l.set i InventorySlot.Empty) + 1 = holdsCount l := by
  have hc := countP_set_aux isHolds l i InventorySlot.Empty InventorySlot.Empty h
  rw [he] at hc
  simp [isHolds] at hc
  unfold holdsCount
  omega

/-- Overwriting an in-range occupied slot with an item keeps holdsCount. -/
theorem holdsCount_set_item_of_item {l : List InventorySlot} {i : Nat} (it : Item)
    {it0 : Item}
    (h : i < l.length) (he : l.getD i InventorySlot.Empty = InventorySlot.Item it0) :
    holdsCount (l.set i (InventorySlot.Item it)) = holdsCount l := by
  have hc := countP_set_aux isHolds l i (InventorySlot.Item it) InventorySlot.Empty h
  rw [he] at hc
  simp [isHolds] at hc
  unfold holdsCount
  omega

/-- A getD that returns an item certifies the index is in range. -/
theorem getD_item_lt_length {l : List InventorySlot} {i : Nat} {it : Item}
    (he : l.getD i InventorySlot.Empty = InventorySlot.Item it) : i < l.length := by
  by_contra h
  rw [List.getD_eq_default _ _ (Nat.le_of_not_lt h)] at he
  exact absurd he (by simp)

/-- An occupied slot forces holdsCount to be at least one. -/
theorem one_le_holdsCount_of_getD_item {l : List InventorySlot} {i : Nat} {it : Item}
    (he : l.getD i InventorySlot.Empty = InventorySlot.Item it) :
    1 ≤ holdsCount l := by
  have hi := getD_item_lt_length he
  rw [List.getD_eq_getElem _ _ hi] at he
  have hmem : InventorySlot.Item it ∈ l := he ▸ List.getElem_mem hi
  unfold holdsCount
  have hpos : 0 < List.countP isHolds l := List.countP_pos_iff.mpr ⟨_, hmem, rfl⟩
  omega

/-- swapList keeps the length of the slot list. -/
theorem swapList_length (l : List InventorySlot) (a b : Nat) :
    (swapList l a b).length = l.length := by
  simp [swapList]

/-- After swapList, position a holds what position b held. -/
theorem swapList_getD_left {l : List InventorySlot} {a b : Nat}
    (ha : a < l.length) (hb : b < l.length) :
    (swapList l a b).getD a InventorySlot.Empty = l.getD b InventorySlot.Empty := by
  unfold swapList
  by_cases hab : a = b
  · subst hab
    exact getD_set_self _ _ (by simpa using ha)
  · rw [getD_set_ne _ _ (fun h => hab h.symm)]
    exact getD_set_self _ _ ha

/-- After swapList, position b holds what position a held. -/
theorem swapList_getD_right {l : List InventorySlot} {a b : Nat}
    (hb : b < l.length) :
    (swapList l a b).getD b InventorySlot.Empty = l.getD a InventorySlot.Empty := by
  unfold swapList
  exact getD_set_self _ _ (by simpa using hb)

/-- swapList leaves every position other than a and b unchanged. -/
theorem swapList_getD_other {l : List InventorySlot} {a b i : Nat}
    (hia : i ≠ a) (hib : i ≠ b) :
    (swapList l a b).getD i InventorySlot.Empty = l.getD i InventorySlot.Empty := by
  unfold swapList
  rw [getD_set_ne _ _ (fun h => hib h.symm), getD_set_ne _ _ (fun h => hia h.symm)]

/-- swapList does not change the number of occupied slots. -/
theorem holdsCount_swapList {l : List InventorySlot} {a b : Nat}
    (ha : a < l.length) (hb : b < l.length) :
    holdsCount (swapList l a b) = holdsCount l := by
  have h1 := countP_set_aux isHolds l a (l.getD b InventorySlot.Empty)
    InventorySlot.Empty ha
  have hb1 : b < (l.set a (l.getD b InventorySlot.Empty)).length := by simpa using hb
  have h2 := countP_set_aux isHolds (l.set a (l.getD b InventorySlot.Empty)) b
    (l.getD a InventorySlot.Empty) InventorySlot.Empty hb1
  have hgb : (l.set a (l.getD b InventorySlot.Empty)).getD b InventorySlot.Empty
      = l.getD b InventorySlot.Empty := by
    by_cases hab : a = b
    · subst hab; exact getD_set_self _ _ ha
    · exact getD_set_ne _ _ hab
  rw [hgb] at h2
  unfold holdsCount swapList
  split_ifs at h1 h2 <;> omega

/-- swapList is an involution on in-range indices. -/
theorem swapList_swapList {l : List InventorySlot} {a b : Nat}
    (ha : a < l.length) (hb : b < l.length) :
    swapList (swapList l a b) a b = l := by
  have hlen := swapList_length l a b
  have ha' : a < (swapList l a b).length := by omega
  have hb' : b < (swapList l a b).length := by omega
  apply List.ext_getElem (by rw [swapList_length, swapList_length])
  intro i h1 h2
  rw [← List.getD_eq_getElem _ InventorySlot.Empty h1,
    ← List.getD_eq_getElem _ InventorySlot.Empty h2]
  by_cases hib : i = b
  · subst hib
    rw [swapList_getD_right hb', swapList_getD_left ha hb]
  · by_cases hia : i = a
    · subst hia
      rw [swapList_getD_left ha' hb', swapList_getD_right hb]
    · rw [swapList_getD_other hia hib, swapList_getD_other hia hib]

/-- The first-fit scan of add realizes the first-empty-index description. -/
theorem addLoop_eq (item : Item) (l : List InventorySlot) :
    addLoop item l
      = (firstEmptyIdx l).map (fun j => l.set j (InventorySlot.Item item)) := by
  induction l with
  | nil => rfl
  | cons s t ih =>
    cases s with
    | Empty => rfl
    | Item i =>
      simp only [addLoop, firstEmptyIdx, ih]
      cases firstEmptyIdx t <;> simp [List.set_cons_succ]

/-- The implemented add agrees with its spec wording. -/
theorem add_eq_add_spec (inv : Inventory) (item : Item) :
    add inv item = add_spec inv item := by
  unfold add add_spec
  rw [addLoop_eq]
  cases firstEmptyIdx inv.items <;> rfl

/-- A first-empty index is in range and names an Empty slot. -/
theorem firstEmptyIdx_some {l : List InventorySlot} {j : Nat}
    (h : firstEmptyIdx l = some j) :
    j < l.length ∧ l.getD j InventorySlot.Empty = InventorySlot.Empty := by
  induction l generalizing j with
  | nil => simp [firstEmptyIdx] at h
  | cons s t ih =>
    cases s with
    | Empty =>
      simp only [firstEmptyIdx, Option.some.injEq] at h
      subst h
      simp [List.getD_cons_zero]
    | Item i =>
      cases hfe : firstEmptyIdx t with
      | none => rw [firstEmptyIdx, hfe] at h; simp at h
      | some j0 =>
        rw [firstEmptyIdx, hfe] at h
        simp at h
        subst h
        have := ih hfe
        simp only [List.length_cons, List.getD_cons_succ]
        exact ⟨by omega, this.2⟩


/-- firstEmptyIdx finds nothing exactly when no slot is Empty. -/
theorem firstEmptyIdx_none_iff {l : List InventorySlot} :
    firstEmptyIdx l = none ↔ ∀ s ∈ l, s ≠ InventorySlot.Empty := by
  induction l with
  | nil => simp [firstEmptyIdx]
  | cons s t ih =>
    cases s with
    | Empty => simp [firstEmptyIdx]
    | Item i => simp [firstEmptyIdx, ih]

/-- If fewer slots hold items than there are slots, an Empty slot exists. -/
theorem firstEmptyIdx_some_of_holdsCount_lt {l : List InventorySlot}
    (h : holdsCount l < l.length) : ∃ j, firstEmptyIdx l = some j := by
  cases hfe : firstEmptyIdx l with
  | some j => exact ⟨j, rfl⟩
  | none =>
    exfalso
    have hall : ∀ s ∈ l, isHolds s = true := by
      intro s hs
      have hne := firstEmptyIdx_none_iff.mp hfe s hs
      cases s with
      | Empty => exact absurd rfl hne
      | Item i => rfl
    have := List.countP_eq_length.mpr hall
    unfold holdsCount at h
    omega

/-- If every slot holds an item, firstEmptyIdx finds nothing. -/
theorem firstEmptyIdx_none_of_holdsCount_eq {l : List InventorySlot}
    (h : holdsCount l = l.length) : firstEmptyIdx l = none := by
  apply firstEmptyIdx_none_iff.mpr
  intro s hs hemp
  have hall := List.countP_eq_length.mp h s hs
  rw [hemp] at hall
  exact absurd hall (by simp [isHolds])

/-- A first-match result is in range, names the held item, and matches the
requested identifier. -/
theorem firstMatch_some {id : Nat} {l : List InventorySlot} {j : Nat} {held : Item}
    (h : firstMatch id l = some (j, held)) :
    j < l.length ∧ l.getD j InventorySlot.Empty = InventorySlot.Item held
      ∧ held.identifier = id := by
  induction l generalizing j with
  | nil => simp [firstMatch] at h
  | cons s t ih =>
    cases s with
    | Empty =>
      cases hfm : firstMatch id t with
      | none => rw [firstMatch, hfm] at h; simp at h
      | some p =>
        obtain ⟨j0, held0⟩ := p
        rw [firstMatch, hfm] at h
        simp at h
        obtain ⟨rfl, rfl⟩ := h
        have := ih hfm
        simp only [List.length_cons, List.getD_cons_succ]
        exact ⟨by omega, this.2.1, this.2.2⟩
    | Item i =>
      by_cases hid : i.identifier = id
      · rw [firstMatch, if_pos hid] at h
        simp at h
        obtain ⟨rfl, rfl⟩ := h
        exact ⟨by simp, by simp [List.getD_cons_zero], hid⟩
      · cases hfm : firstMatch id t with
        | none => rw [firstMatch, if_neg hid, hfm] at h; simp at h
        | some p =>
          obtain ⟨j0, held0⟩ := p
          rw [firstMatch, if_neg hid, hfm] at h
          simp at h
          obtain ⟨rfl, rfl⟩ := h
          have := ih hfm
          simp only [List.length_cons, List.getD_cons_succ]
          exact ⟨by omega, this.2.1, this.2.2⟩

/-- When no slot matches the identifier, the removal scan reports NotFound. -/
theorem removeLoop_of_none {item : Item} {l : List InventorySlot}
    (h : firstMatch item.identifier l = none) :
    removeLoop item l = RemoveStep.NotFound := by
  induction l with
  | nil => rfl
  | cons s t ih =>
    cases s with
    | Empty =>
      rw [firstMatch] at h
      simp at h
      rw [removeLoop, ih h]
    | Item i =>
      by_cases hid : i.identifier = item.identifier
      · rw [firstMatch, if_pos hid] at h
        simp at h
      · rw [firstMatch, if_neg hid] at h
        simp at h
        rw [removeLoop, if_neg hid, ih h]

/-- At the first matching slot, the removal scan acts exactly as the spec
wording describes, on the whole slot list. -/
theorem removeLoop_of_some {item held : Item} {l : List InventorySlot} {j : Nat}
    (h : firstMatch item.identifier l = some (j, held)) :
    removeLoop item l =
      if item.quantity < held.quantity then RemoveStep.Insufficient
      else if item.quantity - held.quantity = 0 then
        RemoveStep.Cleared (l.set j InventorySlot.Empty)
      else
        RemoveStep.Replaced (l.set j
          (InventorySlot.Item
            (Item.new held.identifier (item.quantity - held.quantity)))) := by
  induction l generalizing j with
  | nil => simp [firstMatch] at h
  | cons s t ih =>
    cases s with
    | Empty =>
      cases hfm : firstMatch item.identifier t with
      | none => rw [firstMatch, hfm] at h; simp at h
      | some p =>
        obtain ⟨j0, held0⟩ := p
        rw [firstMatch, hfm] at h
        simp at h
        obtain ⟨rfl, rfl⟩ := h
        rw [removeLoop, ih hfm]
        by_cases hq : item.quantity < held0.quantity
        · simp only [if_pos hq]
        · simp only [if_neg hq]
          by_cases hd : item.quantity - held0.quantity = 0
          · simp only [if_pos hd]
            rfl
          · simp only [if_neg hd]
            rfl
    | Item i =>
      by_cases hid : i.identifier = item.identifier
      · rw [firstMatch, if_pos hid] at h
        simp at h
        obtain ⟨rfl, rfl⟩ := h
        rw [removeLoop]
        simp only [if_pos hid]
        by_cases hq : item.quantity < i.quantity
        · simp only [if_pos hq]
        · simp only [if_neg hq]
          by_cases hd : item.quantity - i.quantity = 0
          · simp only [if_pos hd]
            rfl
          · simp only [if_neg hd]
            rfl
      · cases hfm : firstMatch item.identifier t with
        | none => rw [firstMatch, if_neg hid, hfm] at h; simp at h
        | some p =>
          obtain ⟨j0, held0⟩ := p
          rw [firstMatch, if_neg hid, hfm] at h
          simp at h
          obtain ⟨rfl, rfl⟩ := h
          rw [removeLoop, if_neg hid, ih hfm]
          by_cases hq : item.quantity < held0.quantity
          · simp only [if_pos hq]
          · simp only [if_neg hq]
            by_cases hd : item.quantity - held0.quantity = 0
            · simp only [if_pos hd]
              rfl
            · simp only [if_neg hd]
              rfl

/-- The implemented remove agrees with its spec wording. -/
theorem remove_eq_remove_spec (inv : Inventory) (item : Item) :
    remove inv item = remove_spec inv item := by
  unfold remove remove_spec
  cases hfm : firstMatch item.identifier inv.items with
  | none => rw [removeLoop_of_none hfm]
  | some p =>
    obtain ⟨j, held⟩ := p
    rw [removeLoop_of_some hfm]
    by_cases hq : item.quantity < held.quantity
    · simp only [gt_iff_lt, if_pos hq]
    · simp only [gt_iff_lt, if_neg hq]
      by_cases hd : item.quantity - held.quantity = 0
      · simp only [if_pos hd]
      · simp only [if_neg hd]

/-- One operation preserves capacity, slot-list length, and the bound of
holdsCount by item_count. -/
theorem applyOp_inv {inv : Inventory} (op : Op)
    (hlen : inv.items.length = inv.capacity)
    (hcnt : holdsCount inv.items ≤ inv.item_count) :
    (applyOp inv op).capacity = inv.capacity
      ∧ (applyOp inv op).items.length = inv.items.length
      ∧ holdsCount (applyOp inv op).items ≤ (applyOp inv op).item_count := by
  cases op with
  | add item =>
    simp only [applyOp]
    rw [add_eq_add_spec]
    unfold add_spec
    split
    next j hfe =>
      refine ⟨rfl, by simp, ?_⟩
      have := holdsCount_set_le inv.items j (InventorySlot.Item item)
      simp only
      omega
    next hfe => exact ⟨rfl, rfl, hcnt⟩
  | add_at item slot =>
    simp only [applyOp]
    unfold add_at
    split_ifs with hb
    · exact ⟨rfl, rfl, hcnt⟩
    · refine ⟨rfl, by simp, ?_⟩
      have := holdsCount_set_le inv.items slot (InventorySlot.Item item)
      simp only
      omega
  | remove item =>
    simp only [applyOp]
    rw [remove_eq_remove_spec]
    unfold remove_spec
    split
    next hfm => exact ⟨rfl, rfl, hcnt⟩
    next j held hfm =>
      have hj := firstMatch_some hfm
      split_ifs with hq
      · exact ⟨rfl, rfl, hcnt⟩
      · by_cases hd : item.quantity - held.quantity = 0
        · simp only [if_pos hd, List.length_set, eq_self_iff_true, true_and]
          have h1 := holdsCount_set_empty_of_item hj.1 hj.2.1
          omega
        · simp only [if_neg hd, List.length_set, eq_self_iff_true, true_and]
          have h1 := holdsCount_set_item_of_item (Item.new held.identifier (item.quantity - held.quantity)) hj.1 hj.2.1
          omega
  | remove_at slot =>
    simp only [applyOp]
    unfold remove_at
    split_ifs with hb
    · exact ⟨rfl, rfl, hcnt⟩
    · split
      next it hgd =>
        refine ⟨rfl, by simp, ?_⟩
        have h1 := holdsCount_set_empty_of_item (getD_item_lt_length hgd) hgd
        simp only
        omega
      next hgd => exact ⟨rfl, rfl, hcnt⟩
  | swap a b =>
    simp only [applyOp]
    unfold swap
    split_ifs with hb
    · exact ⟨rfl, rfl, hcnt⟩
    · push_neg at hb
      refine ⟨rfl, by simp [swapList_length], ?_⟩
      rw [holdsCount_swapList (by omega) (by omega)]
      exact hcnt

/-- Core invariant of reachable states: the construction capacity is kept,
the slot list keeps that length, and item_count dominates holdsCount. -/
theorem reachable_inv {n : Nat} {inv : Inventory} (h : Reachable n inv) :
    inv.capacity = n ∧ inv.items.length = n
      ∧ holdsCount inv.items ≤ inv.item_count := by
  induction h with
  | init =>
    refine ⟨rfl, by simp [with_capacity], ?_⟩
    simp [with_capacity, holdsCount, isHolds]
  | step op hr ih =>
    obtain ⟨hcap, hlen, hcnt⟩ := ih
    obtain ⟨h1, h2, h3⟩ := applyOp_inv op (by omega) hcnt
    exact ⟨by omega, by omega, h3⟩

/-- A safe operation preserves the exact equality between item_count and
the number of occupied slots. -/
theorem applyOp_safe_inv {inv : Inventory} (op : Op)
    (hlen : inv.items.length = inv.capacity)
    (hsafe : SafeOp inv op)
    (hcnt : holdsCount inv.items = inv.item_count) :
    (applyOp inv op).capacity = inv.capacity
      ∧ (applyOp inv op).items.length = inv.items.length
      ∧ holdsCount (applyOp inv op).items = (applyOp inv op).item_count := by
  cases op with
  | add item =>
    simp only [applyOp]
    rw [add_eq_add_spec]
    unfold add_spec
    split
    next j hfe =>
      have hj := firstEmptyIdx_some hfe
      refine ⟨rfl, by simp, ?_⟩
      simp only
      rw [holdsCount_set_item_of_empty item hj.1 hj.2]
      omega
    next hfe => exact ⟨rfl, rfl, hcnt⟩
  | add_at item slot =>
    simp only [applyOp]
    unfold add_at
    split_ifs with hb
    · exact ⟨rfl, rfl, hcnt⟩
    · have hemp : inv.items.getD slot InventorySlot.Empty = InventorySlot.Empty := by
        cases hsafe with
        | inl h => exact absurd h hb
        | inr h => exact h
      refine ⟨rfl, by simp, ?_⟩
      simp only
      rw [holdsCount_set_item_of_empty item (by omega) hemp]
      omega
  | remove item =>
    simp only [applyOp]
    rw [remove_eq_remove_spec]
    unfold remove_spec
    split
    next hfm => exact ⟨rfl, rfl, hcnt⟩
    next j held hfm =>
      have hj := firstMatch_some hfm
      split_ifs with hq
      · exact ⟨rfl, rfl, hcnt⟩
      · by_cases hd : item.quantity - held.quantity = 0
        · simp only [if_pos hd, List.length_set, eq_self_iff_true, true_and]
          have h1 := holdsCount_set_empty_of_item hj.1 hj.2.1
          have h2 := one_le_holdsCount_of_getD_item hj.2.1
          omega
        · simp only [if_neg hd, List.length_set, eq_self_iff_true, true_and]
          have h1 := holdsCount_set_item_of_item (Item.new held.identifier (item.quantity - held.quantity)) hj.1 hj.2.1
          omega
  | remove_at slot =>
    simp only [applyOp]
    unfold remove_at
    split_ifs with hb
    · exact ⟨rfl, rfl, hcnt⟩
    · split
      next it hgd =>
        refine ⟨rfl, by simp, ?_⟩
        have h1 := holdsCount_set_empty_of_item (getD_item_lt_length hgd) hgd
        have h2 := one_le_holdsCount_of_getD_item hgd
        simp only
        omega
      next hgd => exact ⟨rfl, rfl, hcnt⟩
  | swap a b =>
    simp only [applyOp]
    unfold swap
    split_ifs with hb
    · exact ⟨rfl, rfl, hcnt⟩
    · push_neg at hb
      refine ⟨rfl, by simp [swapList_length], ?_⟩
      rw [holdsCount_swapList (by omega) (by omega)]
      exact hcnt

/-- Safe reachability keeps item_count exactly equal to holdsCount. -/
theorem reachableSafe_inv {n : Nat} {inv : Inventory} (h : ReachableSafe n inv) :
    inv.capacity = n ∧ inv.items.length = n
      ∧ holdsCount inv.items = inv.item_count := by
  induction h with
  | init =>
    refine ⟨rfl, by simp [with_capacity], ?_⟩
    simp [with_capacity, holdsCount, isHolds]
  | step op hr hsafe ih =>
    obtain ⟨hcap, hlen, hcnt⟩ := ih
    obtain ⟨h1, h2, h3⟩ := applyOp_safe_inv op (by omega) hsafe hcnt
    exact ⟨by omega, by omega, h3⟩

/-- A successful swap: both indices below capacity give Ok and the swapped
slot list. -/
theorem swap_ok {inv : Inventory} {a b : Nat}
    (ha : a < inv.capacity) (hb : b < inv.capacity) :
    swap inv a b = (Except.ok (), { inv with items := swapList inv.items a b }) := by
  unfold swap
  rw [if_neg (by omega)]

/-- When an Empty slot exists, add succeeds. -/
theorem add_ok_of_firstEmptyIdx {inv : Inventory} (item : Item) {j : Nat}
    (hfe : firstEmptyIdx inv.items = some j) :
    (add inv item).1 = Except.ok () := by
  rw [add_eq_add_spec]
  unfold add_spec
  rw [hfe]

/-- When no Empty slot exists, add fails with Full and changes nothing. -/
theorem add_full_of_none {inv : Inventory} {item : Item}
    (hfe : firstEmptyIdx inv.items = none) :
    (add inv item).1 = Except.error ContainerError.Full
      ∧ (add inv item).2 = inv := by
  rw [add_eq_add_spec]
  unfold add_spec
  rw [hfe]
  exact ⟨rfl, rfl⟩

/-- add fails with Full exactly when no slot is Empty. -/
theorem add_full_iff (inv : Inventory) (item : Item) :
    (add inv item).1 = Except.error ContainerError.Full
      ↔ ∀ s ∈ inv.items, s ≠ InventorySlot.Empty := by
  constructor
  · intro h
    apply firstEmptyIdx_none_iff.mp
    cases hfe : firstEmptyIdx inv.items with
    | none => rfl
    | some j =>
      have hok := add_ok_of_firstEmptyIdx item hfe
      rw [hok] at h
      simp at h
  · intro h
    exact (add_full_of_none (firstEmptyIdx_none_iff.mpr h)).1

/-- A Full result from add leaves the state unchanged. -/
theorem add_full_unchanged {inv : Inventory} {item : Item}
    (h : (add inv item).1 = Except.error ContainerError.Full) :
    (add inv item).2 = inv :=
  (add_full_of_none (firstEmptyIdx_none_iff.mpr ((add_full_iff inv item).mp h))).2

/-- After k adds into a fresh capacity-n inventory (k at most n), exactly
k slots are occupied and the slot list still has length n. -/
theorem addN_holdsCount (n : Nat) (f : Nat → Item) :
    ∀ k, k ≤ n → holdsCount (addN (with_capacity n) f k).items = k
      ∧ (addN (with_capacity n) f k).items.length = n := by
  intro k
  induction k with
  | zero =>
    intro _
    constructor
    · simp [addN, with_capacity, holdsCount, isHolds]
    · simp [addN, with_capacity]
  | succ k ih =>
    intro hk
    obtain ⟨hh, hl⟩ := ih (by omega)
    have hlt : holdsCount (addN (with_capacity n) f k).items
        < (addN (with_capacity n) f k).items.length := by omega
    obtain ⟨j, hfe⟩ := firstEmptyIdx_some_of_holdsCount_lt hlt
    have hj := firstEmptyIdx_some hfe
    have hitems : (add (addN (with_capacity n) f k) (f k)).2.items
        = (addN (with_capacity n) f k).items.set j (InventorySlot.Item (f k)) := by
      rw [add_eq_add_spec]
      unfold add_spec
      rw [hfe]
    simp only [addN, hitems]
    constructor
    · rw [holdsCount_set_item_of_empty (f k) hj.1 hj.2]
      omega
    · rw [List.length_set]
      exact hl

/-- Each add into a fresh capacity-n inventory succeeds while fewer than n
adds have happened. -/
theorem addN_succeeds {n k : Nat} (f : Nat → Item) (hk : k < n) :
    (add (addN (with_capacity n) f k) (f k)).1 = Except.ok () := by
  obtain ⟨hh, hl⟩ := addN_holdsCount n f k (by omega)
  have hlt : holdsCount (addN (with_capacity n) f k).items
      < (addN (with_capacity n) f k).items.length := by omega
  obtain ⟨j, hfe⟩ := firstEmptyIdx_some_of_holdsCount_lt hlt
  exact add_ok_of_firstEmptyIdx (f k) hfe

/-- The add after n successful adds into a fresh capacity-n inventory fails
with Full. -/
theorem addN_full {n : Nat} (f : Nat → Item) :
    (add (addN (with_capacity n) f n) (f n)).1
      = Except.error ContainerError.Full := by
  obtain ⟨hh, hl⟩ := addN_holdsCount n f n (by omega)
  exact (add_full_of_none (firstEmptyIdx_none_of_holdsCount_eq (by omega))).1

/-- Claim C1 counterexample: the state produced from with_capacity 1 by two
add_at calls on slot 0 is reachable by Container operations, yet its
item_count is 2 while exactly one slot is in state Holds, so the claimed
equality between count and the number of occupied slots fails on a reachable
state (add_at overwriting an occupied slot does not preserve it). -/
theorem C1_counterexample :
    Reachable 1 (applyOp (applyOp (with_capacity 1) (Op.add_at (Item.new 0 1) 0))
        (Op.add_at (Item.new 0 1) 0))
      ∧ (applyOp (applyOp (with_capacity 1) (Op.add_at (Item.new 0 1) 0))
          (Op.add_at (Item.new 0 1) 0)).item_count = 2
      ∧ holdsCount (applyOp (applyOp (with_capacity 1) (Op.add_at (Item.new 0 1) 0))
          (Op.add_at (Item.new 0 1) 0)).items = 1 :=
  ⟨Reachable.step (Op.add_at (Item.new 0 1) 0)
      (Reachable.step (Op.add_at (Item.new 0 1) 0) Reachable.init),
    by decide, by decide⟩

/-- Claim C1 (amended): in every state reachable from with_capacity n by
sequences of add, add_at, remove, remove_at and swap in which add_at is only
ever applied to an out-of-range index or an Empty slot, the value returned by
count equals the number of slots in state Holds. -/
theorem C1_count_invariant {n : Nat} {inv : Inventory} (h : ReachableSafe n inv) :
    count inv = holdsCount inv.items := by
  have hinv := reachableSafe_inv h
  unfold count
  omega

/-- Claim C1 witness: the invariant evaluated on a concrete safely reachable
state, one add into a fresh two-slot inventory. -/
theorem C1_count_invariant_witness :
    count (applyOp (with_capacity 2) (Op.add (Item.new 5 2)))
      = holdsCount (applyOp (with_capacity 2) (Op.add (Item.new 5 2))).items :=
  C1_count_invariant
    (ReachableSafe.step (Op.add (Item.new 5 2)) ReachableSafe.init trivial)

/-- Claim C2: remove scans the slots in ascending index order for the first
slot whose held item has the requested identifier, fails with
QuantityInsufficient (state unchanged) when the held quantity exceeds the
requested one, otherwise clears the slot and decrements the count when the
remainder requested - held is zero and replaces the slot by an item of the
same identifier with quantity equal to the remainder when it is not, and
fails with NotFound (state unchanged) when no slot matches: remove coincides
with the spec-level remove_spec on every inventory and item. -/
theorem C2_remove_correct (inv : Inventory) (item : Item) :
    remove inv item = remove_spec inv item :=
  remove_eq_remove_spec inv item

/-- Claim C3 counterexample: with one slot holding an item of identifier 0
and quantity 1, removing an item of identifier 0 and quantity 5 succeeds
with a nonzero remainder, and the matched slot afterwards holds quantity 4,
which is not strictly less than the quantity 1 held before the call. -/
theorem C3_counterexample :
    (remove (add_at (with_capacity 1) (Item.new 0 1) 0).2 (Item.new 0 5)).1
        = Except.ok ()
      ∧ (remove (add_at (with_capacity 1) (Item.new 0 1) 0).2 (Item.new 0 5)).2.items
        = [InventorySlot.Item (Item.new 0 4)]
      ∧ ¬ (Item.new 0 4).quantity < (Item.new 0 1).quantity :=
  ⟨by decide, by decide, by decide⟩

/-- Claim C3 (amended): when remove succeeds and the matched slot stays
occupied, the slot afterwards holds a new item of the matched identifier
whose quantity equals requested minus held — which need not be smaller than
the previously held quantity. -/
theorem C3_remove_replaced {inv : Inventory} {item held : Item} {j : Nat}
    (hfm : firstMatch item.identifier inv.items = some (j, held))
    (hq : ¬ held.quantity > item.quantity)
    (hr : ¬ item.quantity - held.quantity = 0) :
    (remove inv item).1 = Except.ok ()
      ∧ (remove inv item).2.items.getD j InventorySlot.Empty
        = InventorySlot.Item
            (Item.new held.identifier (item.quantity - held.quantity)) := by
  have hj := firstMatch_some hfm
  rw [remove_eq_remove_spec]
  unfold remove_spec
  rw [hfm]
  simp only [if_neg hq, if_neg hr, true_and]
  exact getD_set_self _ _ hj.1

/-- Claim C3 witness: the amended statement evaluated at the counterexample
input, where the slot ends with quantity 4 = 5 - 1. -/
theorem C3_remove_replaced_witness :
    (remove (add_at (with_capacity 1) (Item.new 0 1) 0).2 (Item.new 0 5)).1
        = Except.ok ()
      ∧ (remove (add_at (with_capacity 1) (Item.new 0 1) 0).2
            (Item.new 0 5)).2.items.getD 0 InventorySlot.Empty
        = InventorySlot.Item (Item.new 0 4) :=
  @C3_remove_replaced (add_at (with_capacity 1) (Item.new 0 1) 0).2
    (Item.new 0 5) (Item.new 0 1) 0 (by decide) (by decide) (by decide)

/-- Claim C4: every reachable state keeps the construction capacity and a
slot list of exactly that length, so every index admitted by the
bounds checks (index below capacity) is within the slot list: the direct
accesses that follow a passed bounds check cannot be out of range. -/
theorem C4_length_invariant {n : Nat} {inv : Inventory} (h : Reachable n inv) :
    inv.capacity = n ∧ inv.items.length = inv.capacity
      ∧ ∀ slot : Nat, slot < inv.capacity → slot < inv.items.length := by
  have hinv := reachable_inv h
  exact ⟨hinv.1, by omega, fun slot hs => by omega⟩

/-- Claim C4 witness: the invariant evaluated on the initial capacity-5
state, with the in-range conclusion instantiated at slot 3. -/
theorem C4_length_invariant_witness :
    (with_capacity 5).capacity = 5
      ∧ (with_capacity 5).items.length = (with_capacity 5).capacity
      ∧ 3 < (with_capacity 5).items.length :=
  ⟨(C4_length_invariant Reachable.init).1,
    (C4_length_invariant Reachable.init).2.1,
    (C4_length_invariant Reachable.init).2.2 3 (by decide)⟩

/-- Claim C5: each index-taking operation returns IndexOutOfBounds exactly
when a supplied index reaches the capacity (for swap, when either index
does); indices all strictly below capacity never produce it. -/
theorem C5_oob_iff (inv : Inventory) (item : Item) (slot a b : Nat) :
    ((add_at inv item slot).1 = Except.error ContainerError.IndexOutOfBounds
        ↔ inv.capacity ≤ slot)
      ∧ ((remove_at inv slot).1 = Except.error ContainerError.IndexOutOfBounds
        ↔ inv.capacity ≤ slot)
      ∧ (get_at inv slot = Except.error ContainerError.IndexOutOfBounds
        ↔ inv.capacity ≤ slot)
      ∧ ((swap inv a b).1 = Except.error ContainerError.IndexOutOfBounds
        ↔ inv.capacity ≤ a ∨ inv.capacity ≤ b) := by
  refine ⟨?_, ?_, ?_, ?_⟩
  · unfold add_at
    split_ifs with hb
    · simpa using hb
    · simp [hb]
  · unfold remove_at
    split_ifs with hb
    · simpa using hb
    · split
      next it hgd => simp [hb]
      next hgd => simp [hb]
  · unfold get_at
    split_ifs with hb
    · simpa using hb
    · split
      next it hgd => simp [hb]
      next hgd => simp [hb]
  · unfold swap
    split_ifs with hb
    · simpa using hb
    · simp [hb]

/-- Claim C6: add refines its spec wording — insertion at the first Empty
slot found by ascending scan with count raised by one and all other slots
kept, Full exactly when no slot is Empty, with no state change on Full —
and, from a fresh inventory of capacity n, each of the first n adds
succeeds while the following add fails with Full. -/
theorem C6_add_correct :
    (∀ (inv : Inventory) (item : Item), add inv item = add_spec inv item)
      ∧ (∀ (inv : Inventory) (item : Item),
          (add inv item).1 = Except.error ContainerError.Full
            ↔ ∀ s ∈ inv.items, s ≠ InventorySlot.Empty)
      ∧ (∀ (inv : Inventory) (item : Item),
          (add inv item).1 = Except.error ContainerError.Full
            → (add inv item).2 = inv)
      ∧ (∀ (n : Nat) (f : Nat → Item) (k : Nat), k < n →
          (add (addN (with_capacity n) f k) (f k)).1 = Except.ok ())
      ∧ (∀ (n : Nat) (f : Nat → Item),
          (add (addN (with_capacity n) f n) (f n)).1
            = Except.error ContainerError.Full) :=
  ⟨add_eq_add_spec, add_full_iff,
    fun _ _ h => add_full_unchanged h,
    fun _ f _ hk => addN_succeeds f hk,
    fun _ f => addN_full f⟩

/-- Claim C6 witness: the components of the statement evaluated at concrete
inputs — capacity 2, adding identical items, and a Full failure on a
zero-capacity inventory leaving it unchanged. -/
theorem C6_add_correct_witness :
    add (with_capacity 1) (Item.new 2 3) = add_spec (with_capacity 1) (Item.new 2 3)
      ∧ (add (addN (with_capacity 2) (fun _ => Item.new 0 1) 1)
          ((fun _ => Item.new 0 1) 1)).1 = Except.ok ()
      ∧ (add (addN (with_capacity 2) (fun _ => Item.new 0 1) 2)
          ((fun _ => Item.new 0 1) 2)).1 = Except.error ContainerError.Full
      ∧ (add (with_capacity 0) (Item.new 0 1)).2 = with_capacity 0 :=
  ⟨C6_add_correct.1 (with_capacity 1) (Item.new 2 3),
    C6_add_correct.2.2.2.1 2 (fun _ => Item.new 0 1) 1 (by decide),
    C6_add_correct.2.2.2.2 2 (fun _ => Item.new 0 1),
    C6_add_correct.2.2.1 (with_capacity 0) (Item.new 0 1) (by decide)⟩

/-- Claim C7: with both indices below capacity, on an inventory whose slot
list has the capacity length (as every constructor-produced state does),
swap succeeds, an immediately repeated identical swap succeeds as well, and
the double swap restores the entire inventory state. -/
theorem C7_swap_involution {inv : Inventory} {a b : Nat}
    (hlen : inv.items.length = inv.capacity)
    (ha : a < inv.capacity) (hb : b < inv.capacity) :
    (swap inv a b).1 = Except.ok ()
      ∧ (swap (swap inv a b).2 a b).1 = Except.ok ()
      ∧ (swap (swap inv a b).2 a b).2 = inv := by
  have ha' : a < inv.items.length := by omega
  have hb' : b < inv.items.length := by omega
  have h1 : swap inv a b
      = (Except.ok (), { inv with items := swapList inv.items a b }) :=
    swap_ok ha hb
  have hc : ¬ (({ inv with items := swapList inv.items a b }).capacity ≤ a
      ∨ ({ inv with items := swapList inv.items a b }).capacity ≤ b) := by
    show ¬ (inv.capacity ≤ a ∨ inv.capacity ≤ b)
    omega
  have h2 : swap { inv with items := swapList inv.items a b } a b
      = (Except.ok (),
          { inv with items := swapList (swapList inv.items a b) a b }) := by
    unfold swap
    rw [if_neg hc]
  refine ⟨by rw [h1], ?_, ?_⟩
  · rw [h1]
    show (swap { inv with items := swapList inv.items a b } a b).1 = Except.ok ()
    rw [h2]
  · rw [h1]
    show (swap { inv with items := swapList inv.items a b } a b).2 = inv
    rw [h2]
    show { inv with items := swapList (swapList inv.items a b) a b } = inv
    rw [swapList_swapList ha' hb']

/-- Claim C7 witness: the involution evaluated on a concrete three-slot
inventory holding one item, swapping slots 0 and 2 twice. -/
theorem C7_swap_involution_witness :
    (swap (add_at (with_capacity 3) (Item.new 1 2) 0).2 0 2).1 = Except.ok ()
      ∧ (swap (swap (add_at (with_capacity 3) (Item.new 1 2) 0).2 0 2).2 0 2).1
        = Except.ok ()
      ∧ (swap (swap (add_at (with_capacity 3) (Item.new 1 2) 0).2 0 2).2 0 2).2
        = (add_at (with_capacity 3) (Item.new 1 2) 0).2 :=
  C7_swap_involution (by decide) (by decide) (by decide)

/-- Claim C8: swap on two indices below capacity succeeds, exchanges exactly
the two slot values in any occupancy combination, and changes nothing else:
capacity, count and every slot other than the two stay as they were. -/
theorem C8_swap_frame {inv : Inventory} {a b : Nat}
    (hlen : inv.items.length = inv.capacity)
    (ha : a < inv.capacity) (hb : b < inv.capacity) :
    (swap inv a b).1 = Except.ok ()
      ∧ (swap inv a b).2.capacity = inv.capacity
      ∧ count (swap inv a b).2 = count inv
      ∧ (swap inv a b).2.items.getD a InventorySlot.Empty
          = inv.items.getD b InventorySlot.Empty
      ∧ (swap inv a b).2.items.getD b InventorySlot.Empty
          = inv.items.getD a InventorySlot.Empty
      ∧ ∀ i : Nat, i ≠ a → i ≠ b →
          (swap inv a b).2.items.getD i InventorySlot.Empty
            = inv.items.getD i InventorySlot.Empty := by
  have ha' : a < inv.items.length := by omega
  have hb' : b < inv.items.length := by omega
  rw [swap_ok ha hb]
  exact ⟨rfl, rfl, rfl,
    swapList_getD_left ha' hb', swapList_getD_right hb',
    fun i hia hib => swapList_getD_other hia hib⟩

/-- Claim C8 witness: the frame property evaluated on a concrete three-slot
inventory, swapping slots 0 and 2 and checking the untouched slot 1. -/
theorem C8_swap_frame_witness :
    (swap (add_at (with_capacity 3) (Item.new 4 2) 0).2 0 2).1 = Except.ok ()
      ∧ count (swap (add_at (with_capacity 3) (Item.new 4 2) 0).2 0 2).2
        = count (add_at (with_capacity 3) (Item.new 4 2) 0).2
      ∧ (swap (add_at (with_capacity 3) (Item.new 4 2) 0).2 0 2).2.items.getD 1
          InventorySlot.Empty
        = (add_at (with_capacity 3) (Item.new 4 2) 0).2.items.getD 1
            InventorySlot.Empty :=
  ⟨(C8_swap_frame (by decide) (by decide) (by decide)).1,
    (C8_swap_frame (by decide) (by decide) (by decide)).2.2.1,
    (C8_swap_frame (by decide) (by decide) (by decide)).2.2.2.2.2 1
      (by decide) (by decide)⟩

/-- Claim C9: in every reachable state item_count is at least the number of
slots in state Holds, so whenever a removal path decrements at an occupied
slot the count is at least one and the subtraction cannot underflow. -/
theorem C9_count_dominates {n : Nat} {inv : Inventory} (h : Reachable n inv) :
    holdsCount inv.items ≤ inv.item_count
      ∧ ∀ (slot : Nat) (it : Item),
          inv.items.getD slot InventorySlot.Empty = InventorySlot.Item it
            → 1 ≤ inv.item_count := by
  have hinv := reachable_inv h
  refine ⟨hinv.2.2, fun slot it hgd => ?_⟩
  have hone := one_le_holdsCount_of_getD_item hgd
  omega

/-- Claim C9 witness: the bound evaluated on the reachable state produced by
one add into a fresh one-slot inventory, whose slot 0 is occupied. -/
theorem C9_count_dominates_witness :
    holdsCount (applyOp (with_capacity 1) (Op.add (Item.new 0 1))).items
        ≤ (applyOp (with_capacity 1) (Op.add (Item.new 0 1))).item_count
      ∧ 1 ≤ (applyOp (with_capacity 1) (Op.add (Item.new 0 1))).item_count :=
  ⟨(C9_count_dominates (Reachable.step (Op.add (Item.new 0 1)) Reachable.init)).1,
    (C9_count_dominates (Reachable.step (Op.add (Item.new 0 1)) Reachable.init)).2
      0 (Item.new 0 1) (by decide)⟩

/-- Claim C10: every fallible mutating operation is atomic on failure: a
result carrying any error leaves capacity, item_count and every slot exactly
as they were before the call. -/
theorem C10_error_atomic (inv : Inventory) (item : Item) (slot a b : Nat)
    (e : ContainerError) :
    ((add inv item).1 = Except.error e → (add inv item).2 = inv)
      ∧ ((add_at inv item slot).1 = Except.error e → (add_at inv item slot).2 = inv)
      ∧ ((remove inv item).1 = Except.error e → (remove inv item).2 = inv)
      ∧ ((remove_at inv slot).1 = Except.error e → (remove_at inv slot).2 = inv)
      ∧ ((swap inv a b).1 = Except.error e → (swap inv a b).2 = inv) := by
  refine ⟨?_, ?_, ?_, ?_, ?_⟩
  · intro h
    unfold add at h ⊢
    cases hal : addLoop item inv.items with
    | some l2 => rw [hal] at h; simp at h
    | none => rfl
  · intro h
    unfold add_at at h ⊢
    split_ifs at h ⊢ with hb
    rfl
  · intro h
    unfold remove at h ⊢
    cases hrl : removeLoop item inv.items with
    | NotFound => rfl
    | Insufficient => rfl
    | Cleared l2 => rw [hrl] at h; simp at h
    | Replaced l2 => rw [hrl] at h; simp at h
  · intro h
    unfold remove_at at h ⊢
    split_ifs at h ⊢ with hb
    · rfl
    · cases hgd : inv.items.getD slot InventorySlot.Empty with
      | Empty => rfl
      | Item it => rw [hgd] at h; simp at h
  · intro h
    unfold swap at h ⊢
    split_ifs at h ⊢ with hb
    rfl

/-- Claim C10 witness: failure atomicity evaluated at concrete erroneous
calls — an out-of-range add_at and an out-of-range swap on a zero-capacity
inventory. -/
theorem C10_error_atomic_witness :
    (add_at (with_capacity 0) (Item.new 1 1) 5).2 = with_capacity 0
      ∧ (swap (with_capacity 0) 0 0).2 = with_capacity 0 :=
  ⟨(C10_error_atomic (with_capacity 0) (Item.new 1 1) 5 0 0
      ContainerError.IndexOutOfBounds).2.1 (by decide),
    (C10_error_atomic (with_capacity 0) (Item.new 1 1) 5 0 0
      ContainerError.IndexOutOfBounds).2.2.2.2 (by decide)⟩

example : (add (with_capacity 2) (Item.new 7 1)).1 = Except.ok () := by decide

example : holdsCount (add (with_capacity 2) (Item.new 7 1)).2.items = 1 := by decide

example :
    (swap (add_at (with_capacity 3) (Item.new 0 1) 0).2 0 2).1 = Except.ok () := by
  decide

example : (swap (with_capacity 3) 0 50).1 = Except.error ContainerError.IndexOutOfBounds := by
  decide

example :
    (remove (add_at (with_capacity 1) (Item.new 0 1) 0).2 (Item.new 0 5)).2.items
      = [InventorySlot.Item (Item.new 0 4)] := by
  decide

end RsLib
